import Mathlib

/-!
Verification of the leave entitlement ledger and accrual engine of the
hrms-api repository.  The Go source is shallowly embedded: GORM queries
become list operations over an explicit database state, `time.Time`
values are modelled at day granularity by their absolute day number
together with the index of the calendar month containing them, and
`float64` day quantities are modelled by rationals (every value the code
manipulates — integers and halves of the fixed monthly rate — is exact
in binary floating point, so rational arithmetic is faithful).
-/

namespace Hrms

/-- Leave request status (models.LeaveStatus). -/
inductive LeaveStatus where
  | pending
  | approved
  | rejected
  | cancelled
  deriving DecidableEq, Repr

/-- Audit actions (models.AuditAction). -/
inductive AuditAction where
  | create
  | approve
  | reject
  | cancel
  | update
  | delete
  deriving DecidableEq, Repr

/-- A point in time as the code observes it: the absolute day number and
the index of the calendar month containing it.  `time.Date(y, m, 1, ...)`
normalisation of a date is projection to `month`. -/
structure Date where
  day : Int
  month : Int
  deriving DecidableEq, Repr

/-- models.Leave.  `startDate`/`endDate` are inclusive calendar dates,
given as day numbers; `approvedAt` timestamps are kept at day
granularity. -/
structure Leave where
  id : Nat
  employeeId : Nat
  leaveTypeId : Nat
  startDate : Int
  endDate : Int
  reason : String
  status : LeaveStatus
  rejectionReason : String
  approvedBy : Option Nat
  approvedAt : Option Int
  deriving DecidableEq, Repr

/-- models.LeaveType. -/
structure LeaveType where
  id : Nat
  name : String
  maxDays : Int
  deriving DecidableEq, Repr

/-- models.LeaveAccrual: one per (employee, leave type, month). -/
structure LeaveAccrual where
  id : Nat
  employeeId : Nat
  leaveTypeId : Nat
  accrualMonth : Int
  daysAccrued : ℚ
  daysUsed : ℚ
  daysBalance : ℚ
  isProcessed : Bool
  notes : Option String
  deriving DecidableEq, Repr

/-- models.EmploymentDetails (the fields the accrual engine reads). -/
structure EmploymentDetails where
  employeeId : Nat
  hireDate : Option Date
  startDate : Option Date
  deriving DecidableEq, Repr

/-- models.Employee (the fields the accrual engine reads). -/
structure Employee where
  id : Nat
  createdAt : Date
  deriving DecidableEq, Repr

/-- models.LeaveAudit (fields written by createAuditRecord). -/
structure LeaveAudit where
  leaveId : Nat
  action : AuditAction
  performedBy : Nat
  oldStatus : String
  newStatus : String
  comment : String
  deriving DecidableEq, Repr

/-- The database tables the leave core reads and writes, plus the
injected clock (`time.Now()` reads `now`). -/
structure DB where
  leaves : List Leave
  accruals : List LeaveAccrual
  employments : List EmploymentDetails
  employees : List Employee
  leaveTypes : List LeaveType
  audits : List LeaveAudit
  nextLeaveId : Nat
  nextAccrualId : Nat
  now : Date
  deriving DecidableEq, Repr

/-- models.Leave.GetDuration: inclusive day count, 0 for an inverted
range. -/
def Leave.getDuration (l : Leave) : Int :=
  if l.endDate < l.startDate then 0 else l.endDate - l.startDate + 1

/-! ## Overlap Validator (utils.CheckOverlappingLeaves) -/

/-- The WHERE clause of utils.CheckOverlappingLeaves: employee match,
status Pending or Approved (any leave type), the three-disjunct date
condition, and the optional id exclusion. -/
def overlapQueryPred (employeeID : Nat) (startDate endDate : Int)
    (excludeLeaveID : Option Nat) (l : Leave) : Bool :=
  l.employeeId == employeeID
    && (l.status == .pending || l.status == .approved)
    && ((l.startDate ≤ endDate && l.endDate ≥ startDate)
        || (l.startDate ≤ startDate && l.endDate ≥ endDate)
        || (l.startDate ≥ startDate && l.endDate ≤ endDate))
    && (match excludeLeaveID with
        | some x => l.id != x
        | none => true)

/-- utils.CheckOverlappingLeaves: count the matching rows and report
whether the count is positive. -/
def CheckOverlappingLeaves (leaves : List Leave) (employeeID : Nat)
    (startDate endDate : Int) (excludeLeaveID : Option Nat) : Bool :=
  decide (0 < leaves.countP (overlapQueryPred employeeID startDate endDate excludeLeaveID))

/-- Inclusive-interval intersection as the spec words it:
`a.start ≤ b.end AND a.end ≥ b.start`. -/
def intervalsIntersect (aStart aEnd bStart bEnd : Int) : Prop :=
  aStart ≤ bEnd ∧ aEnd ≥ bStart

instance (a b c d : Int) : Decidable (intervalsIntersect a b c d) := by
  unfold intervalsIntersect
  infer_instance

/-- For valid intervals the three-disjunct SQL condition collapses to the
single inclusive-intersection test. -/
theorem threeDisjunct_eq_intersect (s t ls le : Int) (hq : s ≤ t) (hv : ls ≤ le) :
    (((ls ≤ t ∧ le ≥ s) ∨ (ls ≤ s ∧ le ≥ t)) ∨ (ls ≥ s ∧ le ≤ t)) ↔ (ls ≤ t ∧ le ≥ s) := by
  omega

/-- Unfolding of the row predicate into propositional form, for valid
intervals. -/
theorem overlapQueryPred_eq_true_iff (e : Nat) (s t : Int) (excl : Option Nat)
    (l : Leave) (hq : s ≤ t) (hv : l.startDate ≤ l.endDate) :
    overlapQueryPred e s t excl l = true ↔
      (l.employeeId = e ∧ (l.status = .pending ∨ l.status = .approved) ∧
        (∀ x, excl = some x → l.id ≠ x) ∧
        intervalsIntersect l.startDate l.endDate s t) := by
  unfold overlapQueryPred intervalsIntersect
  cases excl with
  | none =>
    simp only [Bool.and_true, Bool.and_eq_true, Bool.or_eq_true, beq_iff_eq,
      decide_eq_true_eq]
    constructor
    · rintro ⟨⟨he, hs⟩, hd⟩
      exact ⟨he, hs, by simp, (threeDisjunct_eq_intersect s t _ _ hq hv).mp hd⟩
    · rintro ⟨he, hs, -, hd⟩
      exact ⟨⟨he, hs⟩, (threeDisjunct_eq_intersect s t _ _ hq hv).mpr hd⟩
  | some x =>
    simp only [Bool.and_eq_true, Bool.or_eq_true, beq_iff_eq, bne_iff_ne,
      decide_eq_true_eq]
    constructor
    · rintro ⟨⟨⟨he, hs⟩, hd⟩, hx⟩
      refine ⟨he, hs, ?_, (threeDisjunct_eq_intersect s t _ _ hq hv).mp hd⟩
      rintro y hy
      cases hy
      exact hx
    · rintro ⟨he, hs, hx, hd⟩
      exact ⟨⟨⟨he, hs⟩, (threeDisjunct_eq_intersect s t _ _ hq hv).mpr hd⟩, hx x rfl⟩

/-- C4: for every employee and valid date range, CheckOverlappingLeaves
returns true iff some LeaveRequest of that employee in state Pending or
Approved, across all leave types and excluding the optional exclusion id,
intersects the range under inclusive-interval intersection
(a.start ≤ b.end AND a.end ≥ b.start); moreover the intersection
predicate is symmetric in the two intervals, so detection is independent
of creation order. -/
theorem checkOverlapping_iff_intersect
    (leaves : List Leave) (employeeID : Nat) (startDate endDate : Int)
    (excludeLeaveID : Option Nat)
    (hq : startDate ≤ endDate)
    (hl : ∀ l ∈ leaves, l.startDate ≤ l.endDate) :
    (CheckOverlappingLeaves leaves employeeID startDate endDate excludeLeaveID = true ↔
      ∃ l ∈ leaves, l.employeeId = employeeID ∧
        (l.status = .pending ∨ l.status = .approved) ∧
        (∀ x, excludeLeaveID = some x → l.id ≠ x) ∧
        intervalsIntersect l.startDate l.endDate startDate endDate) ∧
    (∀ a b c d : Int, intervalsIntersect a b c d ↔ intervalsIntersect c d a b) := by
  constructor
  · unfold CheckOverlappingLeaves
    rw [decide_eq_true_iff, List.countP_pos_iff]
    constructor
    · rintro ⟨l, hmem, hp⟩
      exact ⟨l, hmem,
        (overlapQueryPred_eq_true_iff employeeID startDate endDate excludeLeaveID l
          hq (hl l hmem)).mp hp⟩
    · rintro ⟨l, hmem, hp⟩
      exact ⟨l, hmem,
        (overlapQueryPred_eq_true_iff employeeID startDate endDate excludeLeaveID l
          hq (hl l hmem)).mpr hp⟩
  · intro a b c d
    unfold intervalsIntersect
    omega

/-- Closed witness for C4: a pending request on days [5, 7] is detected
against the query range [6, 9]. -/
def c4Leave : Leave :=
  { id := 1, employeeId := 1, leaveTypeId := 2, startDate := 5, endDate := 7,
    reason := "", status := .pending, rejectionReason := "",
    approvedBy := none, approvedAt := none }

theorem checkOverlapping_iff_intersect_witness :
    (CheckOverlappingLeaves [c4Leave] 1 6 9 none = true ↔
      ∃ l ∈ [c4Leave], l.employeeId = 1 ∧
        (l.status = .pending ∨ l.status = .approved) ∧
        (∀ x, (none : Option Nat) = some x → l.id ≠ x) ∧
        intervalsIntersect l.startDate l.endDate 6 9) ∧
    (∀ a b c d : Int, intervalsIntersect a b c d ↔ intervalsIntersect c d a b) :=
  checkOverlapping_iff_intersect [c4Leave] 1 6 9 none (by decide)
    (by intro l hm; simp at hm; subst hm; decide)

/-! ## Accrual engine (utils/leave_accrual.go) -/

/-- Fixed annual accrual constants from utils/leave_accrual.go. -/
def AnnualLeaveDaysPerYear : ℚ := 24

/-- The fixed monthly accrual rate. -/
def AnnualLeaveDaysPerMonth : ℚ := 2

/-- The WHERE clause selecting the ledger row of one
(employee, leave type, month). -/
def accrualKeyPred (emp lt : Nat) (m : Int) (a : LeaveAccrual) : Bool :=
  a.employeeId == emp && a.leaveTypeId == lt && a.accrualMonth == m

/-- GORM First on leave_accruals filtered by employee, leave type and
accrual month; None models the record-not-found error. -/
def findAccrual (accruals : List LeaveAccrual) (emp lt : Nat) (m : Int) :
    Option LeaveAccrual :=
  accruals.find? (accrualKeyPred emp lt m)

/-- GORM First on employment_details by employee id. -/
def findEmployment (db : DB) (emp : Nat) : Option EmploymentDetails :=
  db.employments.find? (fun e => e.employeeId == emp)

/-- GORM First on employees by primary key. -/
def findEmployee (db : DB) (emp : Nat) : Option Employee :=
  db.employees.find? (fun e => e.id == emp)

/-- GORM First on leave_types by primary key. -/
def findLeaveType (db : DB) (lt : Nat) : Option LeaveType :=
  db.leaveTypes.find? (fun t => t.id == lt)

/-- GORM First on leaves by primary key. -/
def findLeave (db : DB) (id : Nat) : Option Leave :=
  db.leaves.find? (fun l => l.id == id)

/-- The accrual row with the greatest accrual month for an employee and
leave type (ORDER BY accrual_month DESC ... First). -/
def latestAccrual (accruals : List LeaveAccrual) (emp lt : Nat) : Option LeaveAccrual :=
  (accruals.filter (fun a => a.employeeId == emp && a.leaveTypeId == lt)).foldl
    (fun best a =>
      match best with
      | none => some a
      | some b => if b.accrualMonth < a.accrualMonth then some a else some b)
    none

/-- The accrual-bearing type test used throughout the handlers:
name == "Annual" || max_days == 24. -/
def LeaveType.isAnnual (lt : LeaveType) : Bool :=
  lt.name == "Annual" || lt.maxDays == 24

/-- utils.calculateAccruedFromDate.  Both dates are first normalised to
the first day of their months; the counting loop (`months` iterations of
one month from the start month while ≤ the end month) is written in its
closed form, then the first month is dropped and the count capped at 12
months. -/
def calculateAccruedFromDate (startDate endDate : Date) : ℚ :=
  let start := startDate.month
  let stop := endDate.month
  let months : Int := if start ≤ stop then stop - start + 1 else 0
  let months := if months > 0 then months - 1 else months
  let months := if months > 12 then 12 else months
  (months : ℚ) * AnnualLeaveDaysPerMonth

/-- utils.CalculateAnnualLeaveAccrued: pick the accrual start date as
hire date, else employment start date, else the employee's creation
date (also the fallback when there is no employment row), then count
accrued months up to `asOfDate`. -/
def CalculateAnnualLeaveAccrued (db : DB) (employeeID leaveTypeID : Nat)
    (asOfDate : Date) : Except String ℚ :=
  match findEmployment db employeeID with
  | none =>
    match findEmployee db employeeID with
    | none => .error "employee not found"
    | some employee => .ok (calculateAccruedFromDate employee.createdAt asOfDate)
  | some employment =>
    match employment.hireDate with
    | some h => .ok (calculateAccruedFromDate h asOfDate)
    | none =>
      match employment.startDate with
      | some s => .ok (calculateAccruedFromDate s asOfDate)
      | none =>
        match findEmployee db employeeID with
        | none => .error "employee not found"
        | some employee => .ok (calculateAccruedFromDate employee.createdAt asOfDate)

/-- The WHERE clause of utils.CalculateDaysUsedInMonth: approved rows of
the employee and leave type whose range touches the month. -/
def daysUsedQueryPred (emp lt : Nat) (msDay meDay : Int) (l : Leave) : Bool :=
  l.employeeId == emp && l.leaveTypeId == lt && l.status == .approved
    && l.startDate ≤ meDay && l.endDate ≥ msDay

/-- utils.CalculateDaysUsedInMonth.  `cal` maps a month index to the day
number of its first day, so the month `m` spans days `cal m` through
`cal (m + 1) - 1` (monthStart.AddDate(0,1,0).AddDate(0,0,-1)); each
selected leave contributes its inclusive overlap with those bounds. -/
def CalculateDaysUsedInMonth (cal : Int → Int) (leaves : List Leave)
    (employeeID leaveTypeID : Nat) (monthStart : Int) : ℚ :=
  let msDay := cal monthStart
  let meDay := cal (monthStart + 1) - 1
  (leaves.filter (daysUsedQueryPred employeeID leaveTypeID msDay meDay)).foldl
    (fun daysUsed l =>
      let overlapStart := if l.startDate < msDay then msDay else l.startDate
      let overlapEnd := if l.endDate > meDay then meDay else l.endDate
      if overlapStart ≤ overlapEnd then
        daysUsed + ((overlapEnd - overlapStart : Int) : ℚ) + 1
      else daysUsed)
    0

/-- The prior month's balance, defaulting to 0 when no record exists
(the source checks prevAccrual.ID > 0 after the query). -/
def prevMonthBalance (db : DB) (employeeID leaveTypeID : Nat) (monthStart : Int) : ℚ :=
  match findAccrual db.accruals employeeID leaveTypeID (monthStart - 1) with
  | some prevAccrual => prevAccrual.daysBalance
  | none => 0

/-- utils.ProcessMonthlyAccrual.  The accrual month argument is a month
index (the source's normalisation of the input time to the first day of
its month is absorbed at this boundary).  Database errors are not
modelled, so every path returns ok, mirroring `return nil`. -/
def ProcessMonthlyAccrual (cal : Int → Int) (db : DB)
    (employeeID leaveTypeID : Nat) (accrualMonth : Int) : DB × Except String Unit :=
  let monthStart := accrualMonth
  match findAccrual db.accruals employeeID leaveTypeID monthStart with
  | some existing =>
    if existing.isProcessed then
      (db, .ok ())
    else
      let prevBalance := prevMonthBalance db employeeID leaveTypeID monthStart
      let daysUsed := CalculateDaysUsedInMonth cal db.leaves employeeID leaveTypeID monthStart
      let newAccrued := AnnualLeaveDaysPerMonth
      let newBalance := prevBalance + newAccrued - daysUsed
      let updated := { existing with
        daysAccrued := newAccrued
        daysUsed := daysUsed
        daysBalance := newBalance
        isProcessed := true }
      ({ db with
          accruals := db.accruals.map (fun a => if a.id == existing.id then updated else a) },
        .ok ())
  | none =>
    let prevBalance := prevMonthBalance db employeeID leaveTypeID monthStart
    let daysUsed := CalculateDaysUsedInMonth cal db.leaves employeeID leaveTypeID monthStart
    let newAccrued := AnnualLeaveDaysPerMonth
    let newBalance := prevBalance + newAccrued - daysUsed
    let accrual : LeaveAccrual :=
      { id := db.nextAccrualId
        employeeId := employeeID
        leaveTypeId := leaveTypeID
        accrualMonth := monthStart
        daysAccrued := newAccrued
        daysUsed := daysUsed
        daysBalance := newBalance
        isProcessed := true
        notes := none }
    ({ db with
        accruals := db.accruals ++ [accrual]
        nextAccrualId := db.nextAccrualId + 1 },
      .ok ())

/-- The month indices the catch-up loop of EnsureAccrualsUpToDate
visits: from the month after the start month through the current month,
inclusive (empty when the start month is not before the current
month). -/
def accrualMonthsToProcess (startMonth currentMonth : Int) : List Int :=
  (List.range (currentMonth - startMonth).toNat).map
    (fun i : Nat => startMonth + 1 + (i : Int))

/-- utils.EnsureAccrualsUpToDate.  The start date is the hire date, else
the employment start date; when there is no employment row, or the row
has neither date, the start date keeps its initial value `time.Now()`
and the loop body never runs. -/
def EnsureAccrualsUpToDate (cal : Int → Int) (db : DB)
    (employeeID leaveTypeID : Nat) : DB × Except String Unit :=
  let startDate :=
    match findEmployment db employeeID with
    | some employment =>
      match employment.hireDate with
      | some h => h
      | none =>
        match employment.startDate with
        | some s => s
        | none => db.now
    | none => db.now
  let currentMonth := db.now.month
  let startMonth := startDate.month
  ((accrualMonthsToProcess startMonth currentMonth).foldl
      (fun s m => (ProcessMonthlyAccrual cal s employeeID leaveTypeID m).1) db,
    .ok ())

/-- Sum of inclusive durations of approved requests of one leave type
(the usedDays loop of utils.CalculateLeaveBalance). -/
def approvedUsedDays (leaves : List Leave) (employeeID leaveTypeID : Nat) : Int :=
  (leaves.filter (fun l =>
      l.employeeId == employeeID && l.leaveTypeId == leaveTypeID
        && l.status == .approved)).foldl
    (fun acc l => acc + l.getDuration) 0

/-- utils.CalculateLeaveBalance: flat allowance minus approved usage,
floored at zero. -/
def CalculateLeaveBalance (db : DB) (employeeID leaveTypeID : Nat) : Except String Int :=
  match findLeaveType db leaveTypeID with
  | none => .error "leave type not found"
  | some leaveType =>
    let balance := leaveType.maxDays - approvedUsedDays db.leaves employeeID leaveTypeID
    .ok (if balance < 0 then 0 else balance)

/-- utils.GetCurrentLeaveBalance: for the accrual-bearing type, catch up
the ledger then read the latest record's balance (computing from scratch
when no record exists); for flat types, defer to CalculateLeaveBalance. -/
def GetCurrentLeaveBalance (cal : Int → Int) (db : DB)
    (employeeID leaveTypeID : Nat) : DB × Except String ℚ :=
  match findLeaveType db leaveTypeID with
  | none => (db, .error "leave type not found")
  | some leaveType =>
    if leaveType.isAnnual then
      let db1 := (EnsureAccrualsUpToDate cal db employeeID leaveTypeID).1
      match latestAccrual db1.accruals employeeID leaveTypeID with
      | some latest => (db1, .ok latest.daysBalance)
      | none =>
        match CalculateAnnualLeaveAccrued db1 employeeID leaveTypeID db1.now with
        | .error e => (db1, .error e)
        | .ok accrued =>
          let balance := accrued - (approvedUsedDays db1.leaves employeeID leaveTypeID : ℚ)
          (db1, .ok (if balance < 0 then 0 else balance))
    else
      match CalculateLeaveBalance db employeeID leaveTypeID with
      | .error e => (db, .error e)
      | .ok b => (db, .ok (b : ℚ))

/-- The usedDays loop of utils.CalculateProjectedAnnualLeaveBalance:
durations of Approved and Pending requests of the leave type whose start
date is on or before the target date. -/
def projectedUsedDays (leaves : List Leave) (employeeID leaveTypeID : Nat)
    (targetDay : Int) : ℚ :=
  (leaves.filter (fun l =>
      l.employeeId == employeeID && l.leaveTypeId == leaveTypeID
        && (l.status == .approved || l.status == .pending))).foldl
    (fun acc l =>
      if l.startDate ≤ targetDay then acc + (l.getDuration : ℚ) else acc)
    0

/-- utils.CalculateProjectedAnnualLeaveBalance. -/
def CalculateProjectedAnnualLeaveBalance (cal : Int → Int) (db : DB)
    (employeeID leaveTypeID : Nat) (targetDate : Date) : DB × Except String ℚ :=
  let res := GetCurrentLeaveBalance cal db employeeID leaveTypeID
  let db1 := res.1
  match res.2 with
  | .error e => (db1, .error e)
  | .ok currentBalance =>
    if targetDate.day ≤ db1.now.day then
      (db1, .ok currentBalance)
    else
      match CalculateAnnualLeaveAccrued db1 employeeID leaveTypeID targetDate with
      | .error e => (db1, .error e)
      | .ok projectedAccrued =>
        let projectedBalance :=
          projectedAccrued - projectedUsedDays db1.leaves employeeID leaveTypeID targetDate.day
        (db1, .ok (if projectedBalance < 0 then 0 else projectedBalance))

/-! ## Leave request lifecycle handlers (unnamed/part_002, handlers/leave_hr.go) -/

/-- The error outcomes of the leave handlers (HTTP status + message pairs
in the source). -/
inductive LeaveError where
  | invalidDateRange
  | pastDate
  | leaveTypeNotFound
  | overlapping
  | insufficientBalance (currentBalance requested : Int)
  | notFound
  | notPendingStatus
  | notOwner
  | notCancellable
  | alreadyStarted
  | internal (msg : String)
  deriving DecidableEq, Repr

deriving instance DecidableEq for Except

/-- The string form of a status written into audit rows. -/
def statusString : LeaveStatus → String
  | .pending => "Pending"
  | .approved => "Approved"
  | .rejected => "Rejected"
  | .cancelled => "Cancelled"

/-- utils.ValidateLeaveDates: start after end is rejected, and a start
before today (time.Now() truncated to the day) is rejected. -/
def ValidateLeaveDates (now : Date) (startDay endDay : Int) : Option LeaveError :=
  if endDay < startDay then some .invalidDateRange
  else if startDay < now.day then some .pastDate
  else none

/-- Go's float64 → int conversion: truncation toward zero. -/
def ratTruncToInt (q : ℚ) : Int :=
  if q < 0 then ⌈q⌉ else ⌊q⌋

/-- The JSON body of the apply endpoint.  The dates carry their month
index because a future start date is fed back into the projected-balance
calculation as the target date. -/
structure ApplyLeaveRequest where
  leaveTypeId : Nat
  startDate : Date
  endDate : Date
  reason : String
  deriving DecidableEq, Repr

/-- handlers.ApplyLeave: validate dates, require the leave type, reject
overlap with Conflict, catch up accruals for the annual type, check the
(projected or current) balance, then create the Pending request and its
CREATE audit row. -/
def ApplyLeave (cal : Int → Int) (db : DB) (employeeID : Nat)
    (req : ApplyLeaveRequest) : DB × Except LeaveError Leave :=
  match ValidateLeaveDates db.now req.startDate.day req.endDate.day with
  | some e => (db, .error e)
  | none =>
  match findLeaveType db req.leaveTypeId with
  | none => (db, .error .leaveTypeNotFound)
  | some leaveType =>
  if CheckOverlappingLeaves db.leaves employeeID req.startDate.day req.endDate.day none then
    (db, .error .overlapping)
  else
    let db1 :=
      if leaveType.isAnnual then
        (EnsureAccrualsUpToDate cal db employeeID req.leaveTypeId).1
      else db
    let balanceStep : DB × Except LeaveError Int :=
      if leaveType.isAnnual && db1.now.day < req.startDate.day then
        let res := CalculateProjectedAnnualLeaveBalance cal db1 employeeID
          req.leaveTypeId req.startDate
        match res.2 with
        | .error _ => (res.1, .error (.internal "Failed to calculate projected leave balance"))
        | .ok projectedBalance => (res.1, .ok (ratTruncToInt projectedBalance))
      else
        match CalculateLeaveBalance db1 employeeID req.leaveTypeId with
        | .error _ => (db1, .error (.internal "Failed to calculate leave balance"))
        | .ok b => (db1, .ok b)
    let db2 := balanceStep.1
    match balanceStep.2 with
    | .error e => (db2, .error e)
    | .ok balance =>
      let leaveDuration := req.endDate.day - req.startDate.day + 1
      if balance < leaveDuration then
        (db2, .error (.insufficientBalance balance leaveDuration))
      else
        let leave : Leave :=
          { id := db2.nextLeaveId
            employeeId := employeeID
            leaveTypeId := req.leaveTypeId
            startDate := req.startDate.day
            endDate := req.endDate.day
            reason := req.reason
            status := .pending
            rejectionReason := ""
            approvedBy := none
            approvedAt := none }
        let audit : LeaveAudit :=
          { leaveId := leave.id
            action := .create
            performedBy := employeeID
            oldStatus := ""
            newStatus := statusString .pending
            comment := req.reason }
        ({ db2 with
            leaves := db2.leaves ++ [leave]
            nextLeaveId := db2.nextLeaveId + 1
            audits := db2.audits ++ [audit] },
          .ok leave)

/-- handlers.RejectLeave: a non-empty reason is enforced by the JSON
binding; only a Pending request can be rejected; the update also writes
approvedBy and approvedAt. -/
def RejectLeave (db : DB) (leaveID approverID : Nat) (reason : String) :
    DB × Except LeaveError Leave :=
  if reason == "" then
    (db, .error (.internal "Rejection reason is required"))
  else
    match findLeave db leaveID with
    | none => (db, .error .notFound)
    | some leave =>
      if leave.status != .pending then
        (db, .error .notPendingStatus)
      else
        let updated := { leave with
          status := .rejected
          rejectionReason := reason
          approvedBy := some approverID
          approvedAt := some db.now.day }
        let audit : LeaveAudit :=
          { leaveId := leave.id
            action := .reject
            performedBy := approverID
            oldStatus := statusString leave.status
            newStatus := statusString .rejected
            comment := reason }
        ({ db with
            leaves := db.leaves.map (fun l => if l.id == leave.id then updated else l)
            audits := db.audits ++ [audit] },
          .ok updated)

/-- handlers.CancelLeave: only the owner, only from Pending or Approved,
and an Approved request only while its start date is still in the
future. -/
def CancelLeave (db : DB) (leaveID employeeID : Nat) : DB × Except LeaveError Leave :=
  match findLeave db leaveID with
  | none => (db, .error .notFound)
  | some leave =>
    if leave.employeeId != employeeID then
      (db, .error .notOwner)
    else if leave.status != .pending && leave.status != .approved then
      (db, .error .notCancellable)
    else if leave.status == .approved && !(decide (db.now.day < leave.startDate)) then
      (db, .error .alreadyStarted)
    else
      let updated := { leave with status := .cancelled }
      let audit : LeaveAudit :=
        { leaveId := leave.id
          action := .cancel
          performedBy := employeeID
          oldStatus := statusString leave.status
          newStatus := statusString .cancelled
          comment := "Cancelled by employee" }
      ({ db with
          leaves := db.leaves.map (fun l => if l.id == leave.id then updated else l)
          audits := db.audits ++ [audit] },
        .ok updated)

/-- The Annual leave type lookup of the HR handlers:
name == "Annual" OR max_days == 24. -/
def findAnnualLeaveType (db : DB) : Option LeaveType :=
  db.leaveTypes.find? (fun t => t.name == "Annual" || t.maxDays == 24)

/-- handlers.AddManualAccrual (leave_hr.go).  The month argument is a
month index (parsed from YYYY-MM in the source).  The printf-formatted
notes text is abstracted to a fixed marker on the update path and the
raw reason on the create path, as in the source; the separate admin
audit-log table is outside the embedded state. -/
def AddManualAccrual (cal : Int → Int) (db : DB) (employeeID : Nat)
    (month : Int) (days : ℚ) (reason : String) : DB × Except String LeaveAccrual :=
  match findAnnualLeaveType db with
  | none => (db, .error "Annual leave type not found")
  | some annualLeaveType =>
    let monthStart := month
    match findAccrual db.accruals employeeID annualLeaveType.id monthStart with
    | some existing =>
      let updated := { existing with
        daysAccrued := existing.daysAccrued + days
        daysBalance := existing.daysBalance + days
        notes := some "Manual accrual added"
        isProcessed := true }
      ({ db with
          accruals := db.accruals.map (fun a => if a.id == existing.id then updated else a) },
        .ok updated)
    | none =>
      let prevBalance := prevMonthBalance db employeeID annualLeaveType.id monthStart
      let daysUsed := CalculateDaysUsedInMonth cal db.leaves employeeID annualLeaveType.id monthStart
      let accrual : LeaveAccrual :=
        { id := db.nextAccrualId
          employeeId := employeeID
          leaveTypeId := annualLeaveType.id
          accrualMonth := monthStart
          daysAccrued := days
          daysUsed := daysUsed
          daysBalance := prevBalance + days - daysUsed
          isProcessed := true
          notes := some reason }
      ({ db with
          accruals := db.accruals ++ [accrual]
          nextAccrualId := db.nextAccrualId + 1 },
        .ok accrual)

/-! ## C10: rejection writes the approval fields -/

/-- C10: every successful RejectLeave call, besides setting the status to
Rejected and storing the rejection reason, sets approvedBy to the
rejecting approver's id and approvedAt to the rejection time — the
fields the spec associates only with approval are mutated on rejection
as well. -/
theorem rejectLeave_sets_approval_fields (db : DB) (leaveID approverID : Nat)
    (reason : String) (leave : Leave)
    (hok : (RejectLeave db leaveID approverID reason).2 = .ok leave) :
    leave.status = .rejected ∧ leave.rejectionReason = reason ∧
      leave.approvedBy = some approverID ∧ leave.approvedAt = some db.now.day := by
  unfold RejectLeave at hok
  split at hok
  · simp at hok
  · split at hok
    · simp at hok
    · split at hok
      · simp at hok
      · simp only [Except.ok.injEq] at hok
        subst hok
        exact ⟨rfl, rfl, rfl, rfl⟩

/-- Closed witness for C10. -/
def c10Leave : Leave :=
  { id := 7, employeeId := 3, leaveTypeId := 1, startDate := 100, endDate := 104,
    reason := "trip", status := .pending, rejectionReason := "",
    approvedBy := none, approvedAt := none }

def c10DB : DB :=
  { leaves := [c10Leave], accruals := [], employments := [], employees := [],
    leaveTypes := [], audits := [], nextLeaveId := 8, nextAccrualId := 1,
    now := ⟨90, 3⟩ }

theorem rejectLeave_sets_approval_fields_witness :
    ((RejectLeave c10DB 7 42 "understaffed").2.toOption.map Leave.status = some .rejected) ∧
      (let l := { c10Leave with
        status := LeaveStatus.rejected, rejectionReason := "understaffed",
        approvedBy := some 42, approvedAt := some (90 : Int) }
      l.status = .rejected ∧ l.rejectionReason = "understaffed" ∧
        l.approvedBy = some 42 ∧ l.approvedAt = some c10DB.now.day) :=
  ⟨by simp [RejectLeave, c10DB, findLeave, c10Leave, Except.toOption],
    rejectLeave_sets_approval_fields c10DB 7 42 "understaffed" _
      (by simp [RejectLeave, c10DB, findLeave, c10Leave])⟩

/-! ## C9: cancellation rules -/

/-- The condition under which a found request is cancellable by the
caller: owning employee, and Pending, or Approved with a start date
still strictly in the future. -/
def cancellableBy (db : DB) (leave : Leave) (employeeID : Nat) : Prop :=
  leave.employeeId = employeeID ∧
    (leave.status = .pending ∨
      (leave.status = .approved ∧ db.now.day < leave.startDate))

instance (db : DB) (leave : Leave) (employeeID : Nat) :
    Decidable (cancellableBy db leave employeeID) := by
  unfold cancellableBy
  infer_instance

/-- C9: CancelLeave succeeds exactly when the caller owns the request
and it is Pending, or Approved with a start date strictly in the future;
on success the stored request becomes Cancelled, and in every other case
an error is returned and the database is unchanged. -/
theorem cancelLeave_characterization (db : DB) (leaveID employeeID : Nat) :
    (∀ leave, findLeave db leaveID = some leave →
      (cancellableBy db leave employeeID →
        (CancelLeave db leaveID employeeID).2 = .ok { leave with status := .cancelled }) ∧
      (¬cancellableBy db leave employeeID →
        (∃ e, (CancelLeave db leaveID employeeID).2 = .error e) ∧
          (CancelLeave db leaveID employeeID).1 = db)) ∧
    (findLeave db leaveID = none →
      (CancelLeave db leaveID employeeID).2 = .error .notFound ∧
        (CancelLeave db leaveID employeeID).1 = db) := by
  constructor
  · intro leave hfind
    constructor
    · rintro ⟨hown, hcase⟩
      unfold CancelLeave
      rw [hfind]
      simp only [hown, bne_self_eq_false, Bool.false_eq_true, if_false]
      rcases hcase with hp | ⟨ha, hfut⟩
      · simp [hp]
      · simp [ha, hfut]
    · intro hnc
      unfold CancelLeave
      rw [hfind]
      unfold cancellableBy at hnc
      push_neg at hnc
      by_cases hown : leave.employeeId = employeeID
      · have hst := hnc hown
        rcases hst with ⟨hnp, hna⟩
        by_cases hap : leave.status = .approved
        · have hfut := hna hap
          simp [hap, hnp, hfut, hown]
        · have : (leave.status != .pending && leave.status != .approved) = true := by
            simp [hnp, hap]
          simp [this, hnp, hap, hown]
      · simp [hown]
  · intro hfind
    unfold CancelLeave
    rw [hfind]
    exact ⟨rfl, rfl⟩

/-- Closed witness for C9: an Approved request starting tomorrow (day 91,
now day 90) is cancellable. -/
def c9Leave : Leave :=
  { id := 5, employeeId := 3, leaveTypeId := 1, startDate := 91, endDate := 95,
    reason := "", status := .approved, rejectionReason := "",
    approvedBy := some 2, approvedAt := some 80 }

def c9DB : DB :=
  { leaves := [c9Leave], accruals := [], employments := [], employees := [],
    leaveTypes := [], audits := [], nextLeaveId := 6, nextAccrualId := 1,
    now := ⟨90, 3⟩ }

theorem cancelLeave_characterization_witness :
    (CancelLeave c9DB 5 3).2 = .ok { c9Leave with status := .cancelled } :=
  ((cancelLeave_characterization c9DB 5 3).1 c9Leave (by
      simp [findLeave, c9DB, c9Leave])).1 (by
    constructor
    · rfl
    · right
      exact ⟨rfl, by norm_num [c9DB, c9Leave]⟩)

/-! ## C3: idempotence of monthly processing -/

/-- Saving over the row that find? located makes find? return the saved
row (an earlier row sharing the id is also overwritten, and the saved
row satisfies the key predicate, so the first hit is the saved row
either way). -/
theorem find_map_update {l : List LeaveAccrual} {p : LeaveAccrual → Bool}
    {existing updated : LeaveAccrual}
    (hfind : l.find? p = some existing)
    (hup : p updated = true) :
    (l.map (fun a => if a.id == existing.id then updated else a)).find? p = some updated := by
  induction l with
  | nil => simp at hfind
  | cons a t ih =>
    by_cases hpa : p a = true
    · rw [List.find?_cons_of_pos _ hpa] at hfind
      injection hfind with h
      subst h
      simp only [List.map_cons, beq_self_eq_true, if_true]
      rw [List.find?_cons_of_pos _ hup]
    · rw [List.find?_cons_of_neg _ (by simp [hpa])] at hfind
      have ih2 := ih hfind
      simp only [List.map_cons]
      by_cases hid : (a.id == existing.id) = true
      · rw [if_pos hid, List.find?_cons_of_pos _ hup]
      · rw [if_neg (by simp_all), List.find?_cons_of_neg _ (by simp [hpa])]
        exact ih2

/-- Appending a matching row after a list with no match makes find?
return the appended row. -/
theorem find_append_of_none {l : List LeaveAccrual} {p : LeaveAccrual → Bool}
    {x : LeaveAccrual}
    (hnone : l.find? p = none)
    (hx : p x = true) :
    (l ++ [x]).find? p = some x := by
  rw [List.find?_append, hnone, List.find?_cons_of_pos _ hx]
  rfl

/-- The ledger row ProcessMonthlyAccrual writes for a month with no
existing record. -/
def freshAccrualRecord (cal : Int → Int) (db : DB) (emp lt : Nat) (m : Int) : LeaveAccrual :=
  { id := db.nextAccrualId
    employeeId := emp
    leaveTypeId := lt
    accrualMonth := m
    daysAccrued := AnnualLeaveDaysPerMonth
    daysUsed := CalculateDaysUsedInMonth cal db.leaves emp lt m
    daysBalance := prevMonthBalance db emp lt m + AnnualLeaveDaysPerMonth
      - CalculateDaysUsedInMonth cal db.leaves emp lt m
    isProcessed := true
    notes := none }

/-- The ledger row ProcessMonthlyAccrual saves over an existing
unprocessed record. -/
def updatedAccrualRecord (cal : Int → Int) (db : DB) (emp lt : Nat) (m : Int)
    (existing : LeaveAccrual) : LeaveAccrual :=
  { existing with
    daysAccrued := AnnualLeaveDaysPerMonth
    daysUsed := CalculateDaysUsedInMonth cal db.leaves emp lt m
    daysBalance := prevMonthBalance db emp lt m + AnnualLeaveDaysPerMonth
      - CalculateDaysUsedInMonth cal db.leaves emp lt m
    isProcessed := true }

/-- ProcessMonthlyAccrual on an already-processed month is a no-op. -/
theorem processMonthlyAccrual_of_processed (cal : Int → Int) {db : DB}
    {emp lt : Nat} {m : Int} {r : LeaveAccrual}
    (h : findAccrual db.accruals emp lt m = some r) (hp : r.isProcessed = true) :
    ProcessMonthlyAccrual cal db emp lt m = (db, .ok ()) := by
  simp only [ProcessMonthlyAccrual]
  rw [h]
  simp [hp]

/-- ProcessMonthlyAccrual on a fresh month appends the computed row. -/
theorem processMonthlyAccrual_of_none (cal : Int → Int) {db : DB}
    {emp lt : Nat} {m : Int}
    (h : findAccrual db.accruals emp lt m = none) :
    ProcessMonthlyAccrual cal db emp lt m =
      ({ db with
          accruals := db.accruals ++ [freshAccrualRecord cal db emp lt m]
          nextAccrualId := db.nextAccrualId + 1 },
        .ok ()) := by
  simp only [ProcessMonthlyAccrual, freshAccrualRecord]
  rw [h]

/-- ProcessMonthlyAccrual on an existing unprocessed month saves the
recomputed row over it. -/
theorem processMonthlyAccrual_of_unprocessed (cal : Int → Int) {db : DB}
    {emp lt : Nat} {m : Int} {existing : LeaveAccrual}
    (h : findAccrual db.accruals emp lt m = some existing)
    (hp : existing.isProcessed = false) :
    ProcessMonthlyAccrual cal db emp lt m =
      ({ db with
          accruals := db.accruals.map (fun a =>
            if a.id == existing.id then updatedAccrualRecord cal db emp lt m existing else a) },
        .ok ()) := by
  simp only [ProcessMonthlyAccrual, updatedAccrualRecord]
  rw [h]
  simp [hp]

/-- C3: ProcessMonthlyAccrual is idempotent: when a processed record
already exists for the (employee, leaveType, month) the call returns
success without recomputation, leaving the database untouched; and after
any first call, a second call for the same key returns success and
leaves the ledger identical to what the first call produced. -/
theorem processMonthlyAccrual_idempotent (cal : Int → Int) (db : DB)
    (employeeID leaveTypeID : Nat) (accrualMonth : Int) :
    (∀ r, findAccrual db.accruals employeeID leaveTypeID accrualMonth = some r →
      r.isProcessed = true →
      ProcessMonthlyAccrual cal db employeeID leaveTypeID accrualMonth = (db, .ok ())) ∧
    ProcessMonthlyAccrual cal
        (ProcessMonthlyAccrual cal db employeeID leaveTypeID accrualMonth).1
        employeeID leaveTypeID accrualMonth
      = ((ProcessMonthlyAccrual cal db employeeID leaveTypeID accrualMonth).1, .ok ()) := by
  refine ⟨fun r hr hp => processMonthlyAccrual_of_processed cal hr hp, ?_⟩
  rcases h : findAccrual db.accruals employeeID leaveTypeID accrualMonth with _ | existing
  · rw [processMonthlyAccrual_of_none cal h]
    have hfind2 : findAccrual
        (db.accruals ++ [freshAccrualRecord cal db employeeID leaveTypeID accrualMonth])
        employeeID leaveTypeID accrualMonth
        = some (freshAccrualRecord cal db employeeID leaveTypeID accrualMonth) := by
      unfold findAccrual at h ⊢
      exact find_append_of_none h (by simp [accrualKeyPred, freshAccrualRecord])
    exact processMonthlyAccrual_of_processed cal hfind2 rfl
  · by_cases hp : existing.isProcessed = true
    · rw [processMonthlyAccrual_of_processed cal h hp]
      exact processMonthlyAccrual_of_processed cal h hp
    · rw [Bool.not_eq_true] at hp
      rw [processMonthlyAccrual_of_unprocessed cal h hp]
      have hkey : accrualKeyPred employeeID leaveTypeID accrualMonth existing = true :=
        List.find?_some h
      have hfind2 : findAccrual
          (db.accruals.map (fun a =>
            if a.id == existing.id then
              updatedAccrualRecord cal db employeeID leaveTypeID accrualMonth existing
            else a))
          employeeID leaveTypeID accrualMonth
          = some (updatedAccrualRecord cal db employeeID leaveTypeID accrualMonth existing) := by
        unfold findAccrual at h ⊢
        refine find_map_update h ?_
        unfold accrualKeyPred at hkey ⊢
        simpa [updatedAccrualRecord] using hkey
      exact processMonthlyAccrual_of_processed cal hfind2 rfl

/-- Closed witness for C3: with an already-processed March record the
call is a no-op. -/
def c3Accrual : LeaveAccrual :=
  { id := 1, employeeId := 1, leaveTypeId := 1, accrualMonth := 2,
    daysAccrued := 2, daysUsed := 0, daysBalance := 2, isProcessed := true,
    notes := none }

def c3DB : DB :=
  { leaves := [], accruals := [c3Accrual], employments := [], employees := [],
    leaveTypes := [], audits := [], nextLeaveId := 1, nextAccrualId := 2,
    now := ⟨90, 3⟩ }

theorem processMonthlyAccrual_idempotent_witness :
    ProcessMonthlyAccrual (fun m => 30 * m) c3DB 1 1 2 = (c3DB, .ok ()) :=
  (processMonthlyAccrual_idempotent (fun m => 30 * m) c3DB 1 1 2).1 c3Accrual
    (by simp [findAccrual, c3DB, accrualKeyPred, c3Accrual]) rfl

/-! ## C1: the persisted balance is not floored at zero -/

/-- C1 (amended): for every ProcessMonthlyAccrual call creating a fresh
record, and for every manual accrual creating a record, the persisted
daysBalance equals prevBalance + daysAccrued − daysUsed with no flooring
at zero, so it is negative whenever usage exceeds the prior balance plus
the month's accrual. -/
theorem accrual_balance_unfloored (cal : Int → Int) (db : DB)
    (employeeID leaveTypeID : Nat) (accrualMonth : Int) (days : ℚ) (reason : String) :
    (findAccrual db.accruals employeeID leaveTypeID accrualMonth = none →
      ∃ rec, findAccrual
          (ProcessMonthlyAccrual cal db employeeID leaveTypeID accrualMonth).1.accruals
          employeeID leaveTypeID accrualMonth = some rec ∧
        rec.daysBalance = prevMonthBalance db employeeID leaveTypeID accrualMonth
          + rec.daysAccrued - rec.daysUsed ∧
        rec.daysAccrued = AnnualLeaveDaysPerMonth ∧
        rec.daysUsed = CalculateDaysUsedInMonth cal db.leaves employeeID leaveTypeID accrualMonth) ∧
    (∀ annual, findAnnualLeaveType db = some annual →
      findAccrual db.accruals employeeID annual.id accrualMonth = none →
      ∃ rec, (AddManualAccrual cal db employeeID accrualMonth days reason).2 = .ok rec ∧
        rec.daysBalance = prevMonthBalance db employeeID annual.id accrualMonth
          + rec.daysAccrued - rec.daysUsed ∧
        rec.daysAccrued = days ∧
        rec.daysUsed = CalculateDaysUsedInMonth cal db.leaves employeeID annual.id accrualMonth) := by
  constructor
  · intro hnone
    rw [processMonthlyAccrual_of_none cal hnone]
    refine ⟨freshAccrualRecord cal db employeeID leaveTypeID accrualMonth, ?_, ?_, rfl, rfl⟩
    · unfold findAccrual at hnone ⊢
      exact find_append_of_none hnone (by simp [accrualKeyPred, freshAccrualRecord])
    · simp [freshAccrualRecord]
  · intro annual hann hnone
    simp only [AddManualAccrual, hann, hnone]
    exact ⟨_, rfl, by simp, rfl, rfl⟩

/-- The concrete scenario refuting the floor: one approved 5-day leave
(days 10..14) inside month 0 (days 0..29 under a uniform-30-day
calendar), an empty ledger and no prior balance. -/
def c1Leave : Leave :=
  { id := 1, employeeId := 1, leaveTypeId := 1, startDate := 10, endDate := 14,
    reason := "", status := .approved, rejectionReason := "",
    approvedBy := some 2, approvedAt := some 5 }

def c1AnnualType : LeaveType := { id := 1, name := "Annual", maxDays := 24 }

def c1DB : DB :=
  { leaves := [c1Leave], accruals := [], employments := [], employees := [],
    leaveTypes := [c1AnnualType], audits := [], nextLeaveId := 2, nextAccrualId := 1,
    now := ⟨35, 1⟩ }

/-- Counterexample to C1 as stated: ProcessMonthlyAccrual persists
daysBalance = 0 + 2 − 5 = −3, a negative value, where the claimed
max(0, prevBalance + daysAccrued − daysUsed) is 0. -/
theorem processMonthlyAccrual_negative_balance :
    ∃ rec ∈ (ProcessMonthlyAccrual (fun m => 30 * m) c1DB 1 1 0).1.accruals,
      rec.daysBalance = -3 ∧ rec.daysBalance < 0 := by
  rw [processMonthlyAccrual_of_none (fun m => 30 * m)
    (by simp [findAccrual, c1DB])]
  refine ⟨freshAccrualRecord (fun m => 30 * m) c1DB 1 1 0, by simp [c1DB], ?_⟩
  have hval : (freshAccrualRecord (fun m => 30 * m) c1DB 1 1 0).daysBalance = -3 := by
    norm_num [freshAccrualRecord, prevMonthBalance, findAccrual, c1DB,
      CalculateDaysUsedInMonth, daysUsedQueryPred, c1Leave, AnnualLeaveDaysPerMonth]
  exact ⟨hval, by rw [hval]; norm_num⟩

/-- Closed witness for the amended C1 at the same concrete scenario. -/
theorem accrual_balance_unfloored_witness :
    (∃ rec, findAccrual
        (ProcessMonthlyAccrual (fun m => 30 * m) c1DB 1 1 0).1.accruals 1 1 0 = some rec ∧
      rec.daysBalance = prevMonthBalance c1DB 1 1 0 + rec.daysAccrued - rec.daysUsed ∧
      rec.daysAccrued = AnnualLeaveDaysPerMonth ∧
      rec.daysUsed = CalculateDaysUsedInMonth (fun m => 30 * m) c1DB.leaves 1 1 0) ∧
    (∃ rec, (AddManualAccrual (fun m => 30 * m) c1DB 1 0 (1/2) "correction").2 = .ok rec ∧
      rec.daysBalance = prevMonthBalance c1DB 1 c1AnnualType.id 0 + rec.daysAccrued - rec.daysUsed ∧
      rec.daysAccrued = 1/2 ∧
      rec.daysUsed = CalculateDaysUsedInMonth (fun m => 30 * m) c1DB.leaves 1 c1AnnualType.id 0) :=
  ⟨(accrual_balance_unfloored (fun m => 30 * m) c1DB 1 1 0 (1/2) "correction").1
      (by simp [findAccrual, c1DB]),
    (accrual_balance_unfloored (fun m => 30 * m) c1DB 1 1 0 (1/2) "correction").2
      c1AnnualType (by simp [findAnnualLeaveType, c1DB, c1AnnualType])
      (by simp [findAccrual, c1DB, c1AnnualType])⟩

/-! ## The catch-up chain: what EnsureAccrualsUpToDate builds on a fresh
ledger with no approved leave -/

/-- With no approved row of the employee and leave type, the month's
usage query selects nothing and daysUsed is 0. -/
theorem daysUsed_zero_of_no_approved (cal : Int → Int) (leaves : List Leave)
    (emp lt : Nat) (m : Int)
    (h : ∀ l ∈ leaves, l.employeeId = emp → l.leaveTypeId = lt → l.status ≠ .approved) :
    CalculateDaysUsedInMonth cal leaves emp lt m = 0 := by
  simp only [CalculateDaysUsedInMonth]
  have hfil : leaves.filter (daysUsedQueryPred emp lt (cal m) (cal (m + 1) - 1)) = [] := by
    refine List.filter_eq_nil_iff.mpr fun l hl => ?_
    unfold daysUsedQueryPred
    by_cases h1 : l.employeeId = emp
    · by_cases h2 : l.leaveTypeId = lt
      · have := h l hl h1 h2
        simp [this]
      · simp [h2]
    · simp [h1]
  rw [hfil]
  rfl

/-- The k-th ledger row a fresh catch-up run writes: month h+1+k,
chained balance 2·(k+1). -/
def chainRecord (id0 emp lt : Nat) (h : Int) (k : Nat) : LeaveAccrual :=
  { id := id0 + k
    employeeId := emp
    leaveTypeId := lt
    accrualMonth := h + 1 + k
    daysAccrued := AnnualLeaveDaysPerMonth
    daysUsed := 0
    daysBalance := AnnualLeaveDaysPerMonth * (k + 1)
    isProcessed := true
    notes := none }

/-- The database after a fresh catch-up run has processed n months past
the start month h. -/
def chainState (db : DB) (emp lt : Nat) (h : Int) (n : Nat) : DB :=
  { db with
    accruals := (List.range n).map (chainRecord db.nextAccrualId emp lt h)
    nextAccrualId := db.nextAccrualId + n }

/-- The month indices of a fresh n-month catch-up run. -/
def chainMonths (h : Int) (n : Nat) : List Int :=
  (List.range n).map (fun i : Nat => h + 1 + (i : Int))

theorem chainMonths_succ (h : Int) (k : Nat) :
    chainMonths h (k + 1) = chainMonths h k ++ [h + 1 + (k : Int)] := by
  unfold chainMonths
  rw [List.range_succ, List.map_append]
  rfl

/-- Looking up month h+1+k in the chain of n records finds the k-th
one. -/
theorem find_chain (id0 emp lt : Nat) (h : Int) (k n : Nat) (hk : k < n) :
    ((List.range n).map (chainRecord id0 emp lt h)).find?
        (accrualKeyPred emp lt (h + 1 + k)) = some (chainRecord id0 emp lt h k) := by
  induction n with
  | zero => omega
  | succ j ih =>
    rw [List.range_succ, List.map_append, List.find?_append]
    by_cases hkj : k < j
    · rw [ih hkj]
      rfl
    · have hkeq : k = j := by omega
      subst hkeq
      have hnone : ((List.range k).map (chainRecord id0 emp lt h)).find?
          (accrualKeyPred emp lt (h + 1 + k)) = none := by
        refine List.find?_eq_none.mpr fun a ha => ?_
        rw [List.mem_map] at ha
        obtain ⟨i, hi, rfl⟩ := ha
        rw [List.mem_range] at hi
        simp only [accrualKeyPred, chainRecord, Bool.and_eq_true, beq_iff_eq]
        rintro ⟨⟨-, -⟩, hcontra⟩
        omega
      rw [hnone]
      simp [accrualKeyPred, chainRecord]

/-- Months outside the chain range are not found. -/
theorem find_chain_none (id0 emp lt : Nat) (h : Int) (m : Int) (n : Nat)
    (hm : ∀ k : Nat, k < n → m ≠ h + 1 + k) :
    ((List.range n).map (chainRecord id0 emp lt h)).find?
        (accrualKeyPred emp lt m) = none := by
  refine List.find?_eq_none.mpr fun a ha => ?_
  rw [List.mem_map] at ha
  obtain ⟨i, hi, rfl⟩ := ha
  rw [List.mem_range] at hi
  simp only [accrualKeyPred, chainRecord, Bool.and_eq_true, beq_iff_eq]
  rintro ⟨⟨-, -⟩, hcontra⟩
  exact hm i hi hcontra.symm

/-- The balance carried into month h+1+k of a chain run: 0 for the first
processed month, else the previous chain record's balance. -/
theorem prevBalance_chain (db : DB) (emp lt : Nat) (h : Int) (k : Nat) :
    prevMonthBalance (chainState db emp lt h k) emp lt (h + 1 + k)
      = AnnualLeaveDaysPerMonth * k := by
  unfold prevMonthBalance findAccrual chainState
  cases k with
  | zero =>
    simp
  | succ j =>
    have harg : (h + 1 + ((j + 1 : Nat) : Int)) - 1 = h + 1 + (j : Int) := by
      push_cast
      ring
    rw [harg, find_chain db.nextAccrualId emp lt h j (j + 1) (by omega)]
    simp only [chainRecord]
    push_cast
    ring

/-- One step of the fresh catch-up run writes exactly the next chain
record. -/
theorem fresh_eq_chain (cal : Int → Int) (db : DB) (emp lt : Nat) (h : Int) (k : Nat)
    (hlv : ∀ l ∈ db.leaves, l.employeeId = emp → l.leaveTypeId = lt → l.status ≠ .approved) :
    freshAccrualRecord cal (chainState db emp lt h k) emp lt (h + 1 + k)
      = chainRecord db.nextAccrualId emp lt h k := by
  have hused : CalculateDaysUsedInMonth cal (chainState db emp lt h k).leaves
      emp lt (h + 1 + k) = 0 :=
    daysUsed_zero_of_no_approved cal db.leaves emp lt _ hlv
  unfold freshAccrualRecord
  rw [hused, prevBalance_chain db emp lt h k]
  unfold chainRecord
  simp only [chainState, LeaveAccrual.mk.injEq, true_and, and_true]
  ring

/-- A fresh catch-up run over the n chain months produces exactly the
chain state. -/
theorem processChainAux (cal : Int → Int) (db : DB) (emp lt : Nat) (h : Int)
    (hacc : db.accruals = [])
    (hlv : ∀ l ∈ db.leaves, l.employeeId = emp → l.leaveTypeId = lt → l.status ≠ .approved)
    (n : Nat) :
    (chainMonths h n).foldl
        (fun s m => (ProcessMonthlyAccrual cal s emp lt m).1) db
      = chainState db emp lt h n := by
  induction n with
  | zero =>
    cases db
    simp_all [chainState, chainMonths]
  | succ k ih =>
    rw [chainMonths_succ, List.foldl_append, ih]
    simp only [List.foldl_cons, List.foldl_nil]
    have hnone : findAccrual (chainState db emp lt h k).accruals emp lt
        (h + 1 + (k : Int)) = none := by
      unfold chainState findAccrual
      exact find_chain_none db.nextAccrualId emp lt h _ k (fun i hi hci => by omega)
    rw [processMonthlyAccrual_of_none cal hnone, fresh_eq_chain cal db emp lt h k hlv]
    unfold chainState
    simp only [List.range_succ, List.map_append, List.map_cons, List.map_nil]
    congr 1

/-- The catch-up loop bounds translate to the chain months. -/
theorem accrualMonths_eq_chainMonths (h : Int) (n : Nat) :
    accrualMonthsToProcess h (h + (n : Int)) = chainMonths h n := by
  have htn : (h + (n : Int) - h).toNat = n := by omega
  unfold accrualMonthsToProcess chainMonths
  rw [htn]


/-- A fresh catch-up run over n months past the start month produces the
chain state. -/
theorem processChain (cal : Int → Int) (db : DB) (emp lt : Nat) (h : Int) (n : Nat)
    (hacc : db.accruals = [])
    (hlv : ∀ l ∈ db.leaves, l.employeeId = emp → l.leaveTypeId = lt → l.status ≠ .approved) :
    (accrualMonthsToProcess h (h + (n : Int))).foldl
        (fun s m => (ProcessMonthlyAccrual cal s emp lt m).1) db
      = chainState db emp lt h n := by
  rw [accrualMonths_eq_chainMonths]
  exact processChainAux cal db emp lt h hacc hlv n

/-- The latest record of a non-empty chain is the last one written. -/
theorem latestAccrual_chain (id0 emp lt : Nat) (h : Int) (n : Nat) (hn : 0 < n) :
    latestAccrual ((List.range n).map (chainRecord id0 emp lt h)) emp lt
      = some (chainRecord id0 emp lt h (n - 1)) := by
  induction n with
  | zero => omega
  | succ j ih =>
    unfold latestAccrual at ih ⊢
    rw [List.range_succ, List.map_append, List.filter_append, List.foldl_append]
    simp only [List.map_cons, List.map_nil]
    have hfil : List.filter (fun a => a.employeeId == emp && a.leaveTypeId == lt)
        [chainRecord id0 emp lt h j] = [chainRecord id0 emp lt h j] := by
      simp [chainRecord]
    rw [hfil]
    cases j with
    | zero =>
      simp [chainRecord]
    | succ i =>
      rw [ih (by omega)]
      simp only [List.foldl_cons, List.foldl_nil, Nat.add_sub_cancel]
      have hlt : (chainRecord id0 emp lt h i).accrualMonth
          < (chainRecord id0 emp lt h (i + 1)).accrualMonth := by
        simp only [chainRecord]
        push_cast
        omega
      simp [hlt]

/-! ## C2: the catch-up applies no cumulative cap -/

/-- C2 (amended): the catch-up applies no cumulative cap: for an
employee whose hire month is n ≥ 24 months before the current month,
with an empty ledger and no approved leave, EnsureAccrualsUpToDate
leaves a final ledger balance of 2·n days — 48 or more, never 24.  (The
24-day cap exists only in calculateAccruedFromDate, which the ledger
chain never consults.) -/
theorem ensure_catchup_uncapped (cal : Int → Int) (db : DB) (emp lt : Nat)
    (e : EmploymentDetails) (hd : Date) (n : Nat)
    (hemp : findEmployment db emp = some e)
    (hhd : e.hireDate = some hd)
    (hn : db.now.month = hd.month + (n : Int))
    (h24 : 24 ≤ n)
    (hacc : db.accruals = [])
    (hlv : ∀ l ∈ db.leaves, l.employeeId = emp → l.leaveTypeId = lt → l.status ≠ .approved) :
    ∃ rec, latestAccrual (EnsureAccrualsUpToDate cal db emp lt).1.accruals emp lt
        = some rec ∧
      rec.daysBalance = AnnualLeaveDaysPerMonth * n ∧ 24 < rec.daysBalance := by
  have hfold : (EnsureAccrualsUpToDate cal db emp lt).1 = chainState db emp lt hd.month n := by
    simp only [EnsureAccrualsUpToDate, hemp, hhd]
    rw [hn]
    exact processChain cal db emp lt hd.month n hacc hlv
  rw [hfold]
  have hone : 1 ≤ n := by omega
  have hcastn : ((n - 1 : Nat) : ℚ) + 1 = (n : ℚ) := by
    push_cast [Nat.cast_sub hone]
    ring
  refine ⟨chainRecord db.nextAccrualId emp lt hd.month (n - 1), ?_, ?_, ?_⟩
  · simp only [chainState]
    exact latestAccrual_chain db.nextAccrualId emp lt hd.month n (by omega)
  · simp only [chainRecord, hcastn]
  · simp only [chainRecord, hcastn]
    unfold AnnualLeaveDaysPerMonth
    have : (24 : ℚ) ≤ (n : ℚ) := by exact_mod_cast h24
    linarith

/-- The concrete 24-months-ago scenario refuting the cap. -/
def c2Employment : EmploymentDetails :=
  { employeeId := 1, hireDate := some ⟨0, 0⟩, startDate := none }

def c2DB : DB :=
  { leaves := [], accruals := [], employments := [c2Employment], employees := [],
    leaveTypes := [], audits := [], nextLeaveId := 1, nextAccrualId := 1,
    now := ⟨730, 24⟩ }

/-- Counterexample to C2 as stated: hired exactly 24 months ago with no
leave, the catch-up leaves a final ledger balance of 48.0, not 24.0. -/
theorem ensure_cap_counterexample :
    ∃ rec, latestAccrual (EnsureAccrualsUpToDate (fun m => 30 * m) c2DB 1 1).1.accruals 1 1
        = some rec ∧ rec.daysBalance = 48 ∧ rec.daysBalance ≠ 24 := by
  have h24 : (24 : Int) = 0 + ((24 : Nat) : Int) := by norm_num
  have hfold : (EnsureAccrualsUpToDate (fun m => 30 * m) c2DB 1 1).1
      = chainState c2DB 1 1 0 24 := by
    have hemp : findEmployment c2DB 1 = some c2Employment := by
      simp [findEmployment, c2DB, c2Employment]
    simp only [EnsureAccrualsUpToDate, hemp]
    have hnowm : c2DB.now.month = (24 : Int) := rfl
    simp only [c2Employment, hnowm, h24]
    exact processChain (fun m => 30 * m) c2DB 1 1 0 24 rfl (by simp [c2DB])
  rw [hfold]
  refine ⟨chainRecord c2DB.nextAccrualId 1 1 0 23, ?_, ?_, ?_⟩
  · simp only [chainState]
    have := latestAccrual_chain c2DB.nextAccrualId 1 1 0 24 (by norm_num)
    simpa using this
  · norm_num [chainRecord, AnnualLeaveDaysPerMonth]
  · norm_num [chainRecord, AnnualLeaveDaysPerMonth]

/-- Closed witness for the amended C2, 26 months after hire: final
balance 52. -/
def c2wDB : DB :=
  { leaves := [], accruals := [], employments := [c2Employment], employees := [],
    leaveTypes := [], audits := [], nextLeaveId := 1, nextAccrualId := 1,
    now := ⟨780, 26⟩ }

theorem ensure_catchup_uncapped_witness :
    ∃ rec, latestAccrual (EnsureAccrualsUpToDate (fun m => 30 * m) c2wDB 1 1).1.accruals 1 1
        = some rec ∧
      rec.daysBalance = AnnualLeaveDaysPerMonth * (26 : Nat) ∧ 24 < rec.daysBalance :=
  ensure_catchup_uncapped (fun m => 30 * m) c2wDB 1 1 c2Employment ⟨0, 0⟩ 26
    (by simp [findEmployment, c2wDB, c2Employment]) rfl (by norm_num [c2wDB]) (by norm_num)
    rfl (by simp [c2wDB])

/-! ## C7: accrual start determination and month range -/

/-- C7 (amended): EnsureAccrualsUpToDate takes the accrual start from
the hire date when present, else the employment start date; on a fresh
ledger with no approved leave it then writes exactly one processed
record for every month from the month after the start month through the
current month, inclusive.  When the employment row has neither date, or
there is no employment row, the start defaults to the current date and
no month is processed — the account-creation-date fallback of the claim
does not exist in this function. -/
theorem ensure_start_rules (cal : Int → Int) (db : DB) (emp lt : Nat) :
    (∀ e hd (n : Nat), findEmployment db emp = some e → e.hireDate = some hd →
      db.now.month = hd.month + (n : Int) → db.accruals = [] →
      (∀ l ∈ db.leaves, l.employeeId = emp → l.leaveTypeId = lt → l.status ≠ .approved) →
      ((EnsureAccrualsUpToDate cal db emp lt).1.accruals.map (fun a => a.accrualMonth)
          = (List.range n).map (fun i : Nat => hd.month + 1 + (i : Int)) ∧
        ∀ a ∈ (EnsureAccrualsUpToDate cal db emp lt).1.accruals, a.isProcessed = true)) ∧
    (∀ e sd (n : Nat), findEmployment db emp = some e → e.hireDate = none → e.startDate = some sd →
      db.now.month = sd.month + (n : Int) → db.accruals = [] →
      (∀ l ∈ db.leaves, l.employeeId = emp → l.leaveTypeId = lt → l.status ≠ .approved) →
      ((EnsureAccrualsUpToDate cal db emp lt).1.accruals.map (fun a => a.accrualMonth)
          = (List.range n).map (fun i : Nat => sd.month + 1 + (i : Int)) ∧
        ∀ a ∈ (EnsureAccrualsUpToDate cal db emp lt).1.accruals, a.isProcessed = true)) ∧
    (∀ e, findEmployment db emp = some e → e.hireDate = none → e.startDate = none →
      EnsureAccrualsUpToDate cal db emp lt = (db, .ok ())) ∧
    (findEmployment db emp = none →
      EnsureAccrualsUpToDate cal db emp lt = (db, .ok ())) := by
  have hempty : accrualMonthsToProcess db.now.month db.now.month = [] := by
    unfold accrualMonthsToProcess
    simp
  refine ⟨?_, ?_, ?_, ?_⟩
  · intro e hd n hemp hhd hn hacc hlv
    have hfold : (EnsureAccrualsUpToDate cal db emp lt).1 = chainState db emp lt hd.month n := by
      simp only [EnsureAccrualsUpToDate, hemp, hhd]
      rw [hn]
      exact processChain cal db emp lt hd.month n hacc hlv
    rw [hfold]
    constructor
    · simp [chainState, chainRecord, List.map_map, Function.comp]
    · intro a ha
      simp only [chainState, List.mem_map] at ha
      obtain ⟨i, -, rfl⟩ := ha
      rfl
  · intro e sd n hemp hhd hsd hn hacc hlv
    have hfold : (EnsureAccrualsUpToDate cal db emp lt).1 = chainState db emp lt sd.month n := by
      simp only [EnsureAccrualsUpToDate, hemp, hhd, hsd]
      rw [hn]
      exact processChain cal db emp lt sd.month n hacc hlv
    rw [hfold]
    constructor
    · simp [chainState, chainRecord, List.map_map, Function.comp]
    · intro a ha
      simp only [chainState, List.mem_map] at ha
      obtain ⟨i, -, rfl⟩ := ha
      rfl
  · intro e hemp hhd hsd
    simp only [EnsureAccrualsUpToDate, hemp, hhd, hsd, hempty, List.foldl_nil]
  · intro hemp
    simp only [EnsureAccrualsUpToDate, hemp, hempty, List.foldl_nil]

/-- The concrete fallback scenario: an employment row with neither hire
nor start date, while the employee's account-creation date is three
months in the past. -/
def c7Employment : EmploymentDetails :=
  { employeeId := 1, hireDate := none, startDate := none }

def c7Employee : Employee := { id := 1, createdAt := ⟨0, 0⟩ }

def c7DB : DB :=
  { leaves := [], accruals := [], employments := [c7Employment],
    employees := [c7Employee], leaveTypes := [], audits := [],
    nextLeaveId := 1, nextAccrualId := 1, now := ⟨95, 3⟩ }

/-- Counterexample to C7 as stated: the account-creation date is
available and lies three months back, yet EnsureAccrualsUpToDate
processes no month at all (it falls back to the current date, not to the
account-creation date), so no ledger record is created. -/
theorem ensure_fallback_counterexample :
    EnsureAccrualsUpToDate (fun m => 30 * m) c7DB 1 1 = (c7DB, .ok ()) ∧
    (EnsureAccrualsUpToDate (fun m => 30 * m) c7DB 1 1).1.accruals = [] ∧
    findEmployee c7DB 1 = some c7Employee ∧
    c7Employee.createdAt.month + 3 = c7DB.now.month := by
  have hemp : findEmployment c7DB 1 = some c7Employment := by
    simp [findEmployment, c7DB, c7Employment]
  have hmain : EnsureAccrualsUpToDate (fun m => 30 * m) c7DB 1 1 = (c7DB, .ok ()) := by
    have hempty : accrualMonthsToProcess c7DB.now.month c7DB.now.month = [] := by
      unfold accrualMonthsToProcess
      simp
    simp only [EnsureAccrualsUpToDate, hemp, c7Employment, hempty, List.foldl_nil]
  refine ⟨hmain, by rw [hmain]; rfl, ?_, by norm_num [c7Employee, c7DB]⟩

  simp [findEmployee, c7DB, c7Employee]

/-- Closed witness for C7: hired in month 0, now month 2 — exactly the
months 1 and 2 are processed. -/
def c7wDB : DB :=
  { leaves := [], accruals := [], employments := [c2Employment], employees := [],
    leaveTypes := [], audits := [], nextLeaveId := 1, nextAccrualId := 1,
    now := ⟨65, 2⟩ }

theorem ensure_start_rules_witness :
    (EnsureAccrualsUpToDate (fun m => 30 * m) c7wDB 1 1).1.accruals.map
        (fun a => a.accrualMonth)
      = (List.range 2).map (fun i : Nat => (⟨0, 0⟩ : Date).month + 1 + (i : Int)) ∧
    ∀ a ∈ (EnsureAccrualsUpToDate (fun m => 30 * m) c7wDB 1 1).1.accruals,
      a.isProcessed = true :=
  (ensure_start_rules (fun m => 30 * m) c7wDB 1 1).1 c2Employment ⟨0, 0⟩ 2
    (by simp [findEmployment, c7wDB, c2Employment]) rfl (by norm_num [c7wDB]) rfl
    (by simp [c7wDB])

/-! ## C6: days used in a month -/

/-- The spec-side inclusive day-overlap of a leave with the month
bounds. -/
def overlapDays (msDay meDay : Int) (l : Leave) : ℚ :=
  ((min l.endDate meDay - max l.startDate msDay : Int) : ℚ) + 1

/-- The spec-side selection: Approved requests of the employee and leave
type whose range intersects the month's first and last day. -/
def specDaysUsedPred (emp lt : Nat) (msDay meDay : Int) (l : Leave) : Bool :=
  l.employeeId == emp && l.leaveTypeId == lt && l.status == .approved
    && decide (intervalsIntersect l.startDate l.endDate msDay meDay)

/-- The spec-side days-used figure: the sum of inclusive day-overlaps of
the selected requests. -/
def specDaysUsed (leaves : List Leave) (emp lt : Nat) (msDay meDay : Int) : ℚ :=
  ((leaves.filter (specDaysUsedPred emp lt msDay meDay)).map (overlapDays msDay meDay)).sum

/-- The usage fold accumulates a per-row contribution. -/
theorem foldl_overlap_sum (msDay meDay : Int) (rows : List Leave) (init : ℚ) :
    rows.foldl (fun daysUsed l =>
        let overlapStart := if l.startDate < msDay then msDay else l.startDate
        let overlapEnd := if l.endDate > meDay then meDay else l.endDate
        if overlapStart ≤ overlapEnd then
          daysUsed + ((overlapEnd - overlapStart : Int) : ℚ) + 1
        else daysUsed) init
      = init + (rows.map (fun l =>
          let overlapStart := if l.startDate < msDay then msDay else l.startDate
          let overlapEnd := if l.endDate > meDay then meDay else l.endDate
          if overlapStart ≤ overlapEnd then ((overlapEnd - overlapStart : Int) : ℚ) + 1
          else 0)).sum := by
  induction rows generalizing init with
  | nil => simp
  | cons a t ih =>
    simp only [List.foldl_cons, List.map_cons, List.sum_cons]
    by_cases h : (if a.startDate < msDay then msDay else a.startDate) ≤
        (if a.endDate > meDay then meDay else a.endDate)
    · rw [if_pos h, if_pos h, ih]
      ring
    · rw [if_neg h, if_neg h, ih]
      ring

/-- The SQL filter of the usage query coincides with the spec-side
selection: the date condition start ≤ monthEnd AND end ≥ monthStart is
exactly inclusive-interval intersection. -/
theorem daysUsedQueryPred_eq_spec (emp lt : Nat) (ms me : Int) :
    daysUsedQueryPred emp lt ms me = specDaysUsedPred emp lt ms me := by
  funext l
  unfold daysUsedQueryPred specDaysUsedPred intervalsIntersect
  by_cases h1 : l.startDate ≤ me <;> by_cases h2 : l.endDate ≥ ms <;>
    simp [h1, h2, Bool.and_assoc]

/-- Rejecting a pending request does not change the usage query's rows. -/
theorem filter_reject_pending (emp lt : Nat) (ms me : Int) (leaves : List Leave) (i : Nat) :
    (leaves.map (fun l =>
        if l.id = i ∧ l.status = .pending then { l with status := .rejected } else l)).filter
        (daysUsedQueryPred emp lt ms me)
      = leaves.filter (daysUsedQueryPred emp lt ms me) := by
  induction leaves with
  | nil => rfl
  | cons a t ih =>
    simp only [List.map_cons]
    by_cases hc : a.id = i ∧ a.status = .pending
    · rw [if_pos hc]
      have h1 : daysUsedQueryPred emp lt ms me { a with status := .rejected } = false := by
        simp [daysUsedQueryPred]
      have h2 : daysUsedQueryPred emp lt ms me a = false := by
        simp [daysUsedQueryPred, hc.2]
      rw [List.filter_cons, List.filter_cons, h1, h2]
      simpa using ih
    · rw [if_neg hc, List.filter_cons, List.filter_cons]
      by_cases hq : daysUsedQueryPred emp lt ms me a = true
      · simp [hq, ih]
      · rw [Bool.not_eq_true] at hq
        simp [hq, ih]

/-- C6: for every employee, leave type and month, daysUsed equals the
sum over all Approved requests of that leave type intersecting the month
of the inclusive day-overlap between the request and the month's first
and last day; and rejecting a Pending request leaves the month's
daysUsed unchanged, since only Approved requests are selected. -/
theorem daysUsedInMonth_correct (cal : Int → Int) (leaves : List Leave)
    (emp lt : Nat) (m : Int) (i : Nat)
    (hcal : cal m ≤ cal (m + 1) - 1)
    (hv : ∀ l ∈ leaves, l.startDate ≤ l.endDate) :
    CalculateDaysUsedInMonth cal leaves emp lt m
        = specDaysUsed leaves emp lt (cal m) (cal (m + 1) - 1) ∧
    CalculateDaysUsedInMonth cal (leaves.map (fun l =>
          if l.id = i ∧ l.status = .pending then { l with status := .rejected } else l))
        emp lt m
      = CalculateDaysUsedInMonth cal leaves emp lt m := by
  constructor
  · simp only [CalculateDaysUsedInMonth]
    rw [foldl_overlap_sum, zero_add, daysUsedQueryPred_eq_spec]
    unfold specDaysUsed
    refine congrArg List.sum (List.map_congr_left fun l hl => ?_)
    have hmem := List.mem_filter.mp hl
    have hval : l.startDate ≤ l.endDate := hv l hmem.1
    have hpred := hmem.2
    simp only [specDaysUsedPred, Bool.and_eq_true, beq_iff_eq, decide_eq_true_eq,
      intervalsIntersect] at hpred
    obtain ⟨⟨-, -⟩, hse, hes⟩ := hpred
    have hos : (if l.startDate < cal m then cal m else l.startDate)
        = max l.startDate (cal m) := by
      rcases lt_or_ge l.startDate (cal m) with h | h
      · simp [h, max_eq_right h.le]
      · simp [not_lt.mpr h, max_eq_left h]
    have hoe : (if l.endDate > cal (m + 1) - 1 then cal (m + 1) - 1 else l.endDate)
        = min l.endDate (cal (m + 1) - 1) := by
      rcases lt_or_ge (cal (m + 1) - 1) l.endDate with h | h
      · simp [h, min_eq_right h.le]
      · simp [not_lt.mpr h, min_eq_left h]
    simp only [hos, hoe, overlapDays]
    rw [if_pos]
    omega
  · simp only [CalculateDaysUsedInMonth]
    rw [filter_reject_pending]

/-- Closed witness for C6: an approved leave over days 10..40 overlaps
month 0 (days 0..29 in a uniform-30-day calendar) on exactly 20 days. -/
def c6Leave : Leave :=
  { id := 1, employeeId := 1, leaveTypeId := 1, startDate := 10, endDate := 40,
    reason := "", status := .approved, rejectionReason := "",
    approvedBy := some 2, approvedAt := some 5 }

theorem daysUsedInMonth_correct_witness :
    CalculateDaysUsedInMonth (fun m => 30 * m) [c6Leave] 1 1 0
        = specDaysUsed [c6Leave] 1 1 (30 * 0) (30 * (0 + 1) - 1) ∧
    CalculateDaysUsedInMonth (fun m => 30 * m) ([c6Leave].map (fun l =>
          if l.id = 2 ∧ l.status = .pending then { l with status := .rejected } else l))
        1 1 0
      = CalculateDaysUsedInMonth (fun m => 30 * m) [c6Leave] 1 1 0 :=
  daysUsedInMonth_correct (fun m => 30 * m) [c6Leave] 1 1 0 2 (by norm_num)
    (by intro l hl; simp at hl; subst hl; norm_num [c6Leave])

/-! ## C5: projected balance -/

/-- Spec-side accrual start: hire date, else employment start date, else
the employee's account-creation date. -/
def specAccrualStart (db : DB) (emp : Nat) : Option Date :=
  match findEmployment db emp with
  | some e =>
    match e.hireDate with
    | some h => some h
    | none =>
      match e.startDate with
      | some s => some s
      | none => (findEmployee db emp).map (fun x => x.createdAt)
  | none => (findEmployee db emp).map (fun x => x.createdAt)

/-- Spec-side projected accrual: the month-counting rule of the accrual
engine extended to the target's month — months strictly after the start
month up to the target month, capped at 12 months (24 days), at the
fixed monthly rate. -/
def specAccrued (sd target : Date) : ℚ :=
  ((min 12 (max 0 (target.month - sd.month)) : Int) : ℚ) * AnnualLeaveDaysPerMonth

/-- The month-counting loop of calculateAccruedFromDate equals the
spec-side closed form. -/
theorem calculateAccruedFromDate_eq_spec (sd d : Date) :
    calculateAccruedFromDate sd d = specAccrued sd d := by
  unfold calculateAccruedFromDate specAccrued
  dsimp only
  congr 1
  rw [Int.cast_inj]
  simp only [min_def, max_def]
  split_ifs <;> omega

/-- CalculateAnnualLeaveAccrued computes the spec-side accrual from the
spec-side start date. -/
theorem calculateAnnualLeaveAccrued_eq_spec (db : DB) (emp lt : Nat) (d sd : Date)
    (h : specAccrualStart db emp = some sd) :
    CalculateAnnualLeaveAccrued db emp lt d = .ok (specAccrued sd d) := by
  unfold CalculateAnnualLeaveAccrued
  unfold specAccrualStart at h
  rcases he : findEmployment db emp with _ | e <;> simp only [he] at h ⊢
  · rcases hf : findEmployee db emp with _ | emp0 <;> simp only [hf] at h ⊢
    · simp at h
    · have h2 : emp0.createdAt = sd := by simpa using h
      rw [h2, calculateAccruedFromDate_eq_spec]
  · rcases hhd : e.hireDate with _ | hd <;> simp only [hhd] at h ⊢
    · rcases hsd : e.startDate with _ | sd0 <;> simp only [hsd] at h ⊢
      · rcases hf : findEmployee db emp with _ | emp0 <;> simp only [hf] at h ⊢
        · simp at h
        · have h2 : emp0.createdAt = sd := by simpa using h
          rw [h2, calculateAccruedFromDate_eq_spec]
      · have h2 : sd0 = sd := by simpa using h
        rw [h2, calculateAccruedFromDate_eq_spec]
    · have h2 : hd = sd := by simpa using h
      rw [h2, calculateAccruedFromDate_eq_spec]

/-- Spec-side projected usage: total inclusive duration of every Pending
or Approved request of the leave type with a start date on or before the
target day. -/
def specProjectedUsed (leaves : List Leave) (emp lt : Nat) (targetDay : Int) : ℚ :=
  ((leaves.filter (fun l =>
      l.employeeId == emp && l.leaveTypeId == lt
        && (l.status == .pending || l.status == .approved)
        && decide (l.startDate ≤ targetDay))).map
    (fun l => (l.getDuration : ℚ))).sum

/-- The usage fold of the projection accumulates the durations of the
rows passing the start-date test. -/
theorem foldl_start_filter (d : Int) (rows : List Leave) (init : ℚ) :
    rows.foldl (fun acc l =>
        if l.startDate ≤ d then acc + (l.getDuration : ℚ) else acc) init
      = init + ((rows.filter (fun l => decide (l.startDate ≤ d))).map
          (fun l => (l.getDuration : ℚ))).sum := by
  induction rows generalizing init with
  | nil => simp
  | cons a t ih =>
    simp only [List.foldl_cons, List.filter_cons]
    by_cases h : a.startDate ≤ d
    · rw [if_pos h, ih]
      simp [h, add_assoc]
    · rw [if_neg h, ih]
      simp [h]

/-- The projection's usage loop equals the spec-side sum. -/
theorem projectedUsedDays_eq_spec (leaves : List Leave) (emp lt : Nat) (d : Int) :
    projectedUsedDays leaves emp lt d = specProjectedUsed leaves emp lt d := by
  unfold projectedUsedDays specProjectedUsed
  rw [foldl_start_filter, zero_add, List.filter_filter]
  refine congrArg List.sum (congrArg (List.map _) (List.filter_congr fun l hl => ?_))
  cases hs : l.status <;>
    by_cases h1 : l.employeeId = emp <;>
    by_cases h2 : l.leaveTypeId = lt <;>
    by_cases h3 : l.startDate ≤ d <;>
    simp [h1, h2, h3, hs, Bool.or_comm]

/-- Flooring at zero is the max with zero. -/
theorem floor0_eq_max (x : ℚ) : (if x < 0 then (0 : ℚ) else x) = max 0 x := by
  rcases lt_or_ge x 0 with h | h
  · simp [h, max_eq_left h.le]
  · simp [not_lt.mpr h, max_eq_right h]

/-- ProcessMonthlyAccrual only writes the accrual table and its id
counter. -/
theorem processMonthlyAccrual_frame (cal : Int → Int) (db : DB)
    (emp lt : Nat) (m : Int) :
    (ProcessMonthlyAccrual cal db emp lt m).1.leaves = db.leaves ∧
    (ProcessMonthlyAccrual cal db emp lt m).1.now = db.now ∧
    (ProcessMonthlyAccrual cal db emp lt m).1.employments = db.employments ∧
    (ProcessMonthlyAccrual cal db emp lt m).1.employees = db.employees ∧
    (ProcessMonthlyAccrual cal db emp lt m).1.leaveTypes = db.leaveTypes := by
  rcases h : findAccrual db.accruals emp lt m with _ | ex
  · rw [processMonthlyAccrual_of_none cal h]
    exact ⟨rfl, rfl, rfl, rfl, rfl⟩
  · by_cases hp : ex.isProcessed = true
    · rw [processMonthlyAccrual_of_processed cal h hp]
      exact ⟨rfl, rfl, rfl, rfl, rfl⟩
    · rw [Bool.not_eq_true] at hp
      rw [processMonthlyAccrual_of_unprocessed cal h hp]
      exact ⟨rfl, rfl, rfl, rfl, rfl⟩

/-- The catch-up loop only writes the accrual table and its id
counter. -/
theorem foldProcess_frame (cal : Int → Int) (emp lt : Nat) (months : List Int) :
    ∀ db : DB,
      ((months.foldl (fun s m => (ProcessMonthlyAccrual cal s emp lt m).1) db).leaves
          = db.leaves ∧
        (months.foldl (fun s m => (ProcessMonthlyAccrual cal s emp lt m).1) db).now
          = db.now ∧
        (months.foldl (fun s m => (ProcessMonthlyAccrual cal s emp lt m).1) db).employments
          = db.employments ∧
        (months.foldl (fun s m => (ProcessMonthlyAccrual cal s emp lt m).1) db).employees
          = db.employees ∧
        (months.foldl (fun s m => (ProcessMonthlyAccrual cal s emp lt m).1) db).leaveTypes
          = db.leaveTypes) := by
  induction months with
  | nil => exact fun db => ⟨rfl, rfl, rfl, rfl, rfl⟩
  | cons m t ih =>
    intro db
    simp only [List.foldl_cons]
    obtain ⟨h1, h2, h3, h4, h5⟩ := ih ((ProcessMonthlyAccrual cal db emp lt m).1)
    obtain ⟨g1, g2, g3, g4, g5⟩ := processMonthlyAccrual_frame cal db emp lt m
    exact ⟨h1.trans g1, h2.trans g2, h3.trans g3, h4.trans g4, h5.trans g5⟩

/-- The catch-up never touches anything but the accrual table. -/
theorem ensure_frame (cal : Int → Int) (db : DB) (emp lt : Nat) :
    (EnsureAccrualsUpToDate cal db emp lt).1.leaves = db.leaves ∧
    (EnsureAccrualsUpToDate cal db emp lt).1.now = db.now ∧
    (EnsureAccrualsUpToDate cal db emp lt).1.employments = db.employments ∧
    (EnsureAccrualsUpToDate cal db emp lt).1.employees = db.employees ∧
    (EnsureAccrualsUpToDate cal db emp lt).1.leaveTypes = db.leaveTypes := by
  unfold EnsureAccrualsUpToDate
  exact foldProcess_frame cal emp lt _ db

/-- The state GetCurrentLeaveBalance hands back is either the input
state or the catch-up result. -/
theorem getCurrentLeaveBalance_state (cal : Int → Int) (db : DB) (emp lt : Nat) :
    (GetCurrentLeaveBalance cal db emp lt).1 = db ∨
    (GetCurrentLeaveBalance cal db emp lt).1 = (EnsureAccrualsUpToDate cal db emp lt).1 := by
  unfold GetCurrentLeaveBalance
  split
  · left
    rfl
  · split
    · dsimp only
      split
      · right
        rfl
      · split
        · right
          rfl
        · right
          rfl
    · split
      · left
        rfl
      · left
        rfl

/-- GetCurrentLeaveBalance never touches anything but the accrual
table. -/
theorem getCurrentLeaveBalance_frame (cal : Int → Int) (db : DB) (emp lt : Nat) :
    (GetCurrentLeaveBalance cal db emp lt).1.leaves = db.leaves ∧
    (GetCurrentLeaveBalance cal db emp lt).1.now = db.now ∧
    (GetCurrentLeaveBalance cal db emp lt).1.employments = db.employments ∧
    (GetCurrentLeaveBalance cal db emp lt).1.employees = db.employees ∧
    (GetCurrentLeaveBalance cal db emp lt).1.leaveTypes = db.leaveTypes := by
  rcases getCurrentLeaveBalance_state cal db emp lt with h | h <;> rw [h]
  · exact ⟨rfl, rfl, rfl, rfl, rfl⟩
  · exact ensure_frame cal db emp lt

/-- C5: projectedBalance returns the current balance unchanged whenever
targetDate ≤ now; otherwise it returns the projected total accrued as of
targetDate — the accrual engine's month-counting rule (start priority
hire date, else employment start date, else account creation; first
month dropped; capped at 12 months) extended to the target's month —
minus the duration of every Pending or Approved request of the leave
type whose start date is on or before the target, floored at 0. -/
theorem projectedBalance_correct (cal : Int → Int) (db : DB) (emp lt : Nat)
    (target sd : Date) (cur : ℚ)
    (hstart : specAccrualStart db emp = some sd)
    (hcur : (GetCurrentLeaveBalance cal db emp lt).2 = .ok cur) :
    (target.day ≤ db.now.day →
      (CalculateProjectedAnnualLeaveBalance cal db emp lt target).2 = .ok cur) ∧
    (db.now.day < target.day →
      (CalculateProjectedAnnualLeaveBalance cal db emp lt target).2
        = .ok (max 0 (specAccrued sd target
            - specProjectedUsed db.leaves emp lt target.day))) := by
  obtain ⟨hfl, hfn, hfe, hfm, -⟩ := getCurrentLeaveBalance_frame cal db emp lt
  have hstart1 : specAccrualStart (GetCurrentLeaveBalance cal db emp lt).1 emp = some sd := by
    unfold specAccrualStart findEmployment findEmployee at hstart ⊢
    rw [hfe, hfm]
    exact hstart
  constructor
  · intro hle
    unfold CalculateProjectedAnnualLeaveBalance
    simp only [hcur]
    rw [if_pos (by rw [hfn]; exact hle)]
  · intro hgt
    unfold CalculateProjectedAnnualLeaveBalance
    simp only [hcur]
    rw [if_neg (by rw [hfn]; omega)]
    simp only [calculateAnnualLeaveAccrued_eq_spec
      (GetCurrentLeaveBalance cal db emp lt).1 emp lt target sd hstart1]
    rw [projectedUsedDays_eq_spec, hfl, floor0_eq_max]

/-- Concrete scenario for C5: employee hired in month 0, now day 5 of
month 0, target day 40 in month 1 — one month accrues, nothing is
used. -/
def c5Annual : LeaveType := { id := 1, name := "Annual", maxDays := 24 }

def c5Employment : EmploymentDetails :=
  { employeeId := 1, hireDate := some ⟨0, 0⟩, startDate := none }

def c5DB : DB :=
  { leaves := [], accruals := [], employments := [c5Employment], employees := [],
    leaveTypes := [c5Annual], audits := [], nextLeaveId := 1, nextAccrualId := 1,
    now := ⟨5, 0⟩ }

theorem projectedBalance_correct_witness :
    (CalculateProjectedAnnualLeaveBalance (fun m => 30 * m) c5DB 1 1 ⟨40, 1⟩).2
      = .ok (max 0 (specAccrued ⟨0, 0⟩ ⟨40, 1⟩
          - specProjectedUsed c5DB.leaves 1 1 (40 : Int))) :=
  (projectedBalance_correct (fun m => 30 * m) c5DB 1 1 ⟨40, 1⟩ ⟨0, 0⟩ 0
      (by simp [specAccrualStart, findEmployment, c5DB, c5Employment])
      (by
        simp only [GetCurrentLeaveBalance, EnsureAccrualsUpToDate, findLeaveType,
          findEmployment, findEmployee, latestAccrual, CalculateAnnualLeaveAccrued,
          calculateAccruedFromDate, approvedUsedDays, accrualMonthsToProcess,
          LeaveType.isAnnual, c5DB, c5Annual, c5Employment, AnnualLeaveDaysPerMonth]
        norm_num)).2
    (by norm_num [c5DB])

/-! ## C8: overlap rejection precedes any balance check -/

/-- C8: an application with valid dates and an existing leave type that
overlaps an existing Pending or Approved request is rejected with the
Conflict (overlap) error and an unchanged database — before any accrual
catch-up or balance computation runs, so never with InsufficientBalance,
whatever the employee's balance; and every successful application stores
the request in Pending state and appends a CREATE audit record. -/
theorem applyLeave_overlap_and_create (cal : Int → Int) (db : DB)
    (emp : Nat) (req : ApplyLeaveRequest) :
    (ValidateLeaveDates db.now req.startDate.day req.endDate.day = none →
      findLeaveType db req.leaveTypeId ≠ none →
      CheckOverlappingLeaves db.leaves emp req.startDate.day req.endDate.day none = true →
      ApplyLeave cal db emp req = (db, .error .overlapping)) ∧
    (∀ s leave, ApplyLeave cal db emp req = (s, .ok leave) →
      leave.status = .pending ∧
      leave ∈ s.leaves ∧
      { leaveId := leave.id, action := AuditAction.create, performedBy := emp,
        oldStatus := "", newStatus := statusString .pending,
        comment := req.reason } ∈ s.audits) := by
  constructor
  · intro hval hlt hov
    rcases hfound : findLeaveType db req.leaveTypeId with _ | lt0
    · exact absurd hfound hlt
    · simp [ApplyLeave, hval, hfound, hov]
  · intro s leave h
    unfold ApplyLeave at h
    repeat' (first | split at h | dsimp only at h)
    all_goals simp at h
    all_goals
      obtain ⟨hs, hl⟩ := h
      subst hs
      subst hl
      exact ⟨rfl, by simp, by simp⟩

/-- Concrete C8 scenarios: an overlapping second application (days
12..14 against a pending 10..12), and a clean successful application. -/
def c8Sick : LeaveType := { id := 2, name := "Sick", maxDays := 20 }

def c8PendingLeave : Leave :=
  { id := 9, employeeId := 1, leaveTypeId := 2, startDate := 10, endDate := 12,
    reason := "", status := .pending, rejectionReason := "",
    approvedBy := none, approvedAt := none }

def c8DB : DB :=
  { leaves := [c8PendingLeave], accruals := [], employments := [], employees := [],
    leaveTypes := [c8Sick], audits := [], nextLeaveId := 10, nextAccrualId := 1,
    now := ⟨5, 0⟩ }

def c8Req : ApplyLeaveRequest :=
  { leaveTypeId := 2, startDate := ⟨12, 0⟩, endDate := ⟨14, 0⟩, reason := "trip" }

def c8okDB : DB :=
  { leaves := [], accruals := [], employments := [], employees := [],
    leaveTypes := [c8Sick], audits := [], nextLeaveId := 1, nextAccrualId := 1,
    now := ⟨5, 0⟩ }

def c8OkLeave : Leave :=
  { id := 1, employeeId := 1, leaveTypeId := 2, startDate := 12, endDate := 14,
    reason := "trip", status := .pending, rejectionReason := "",
    approvedBy := none, approvedAt := none }

def c8OkState : DB :=
  { c8okDB with
    leaves := [c8OkLeave]
    nextLeaveId := 2
    audits := [({ leaveId := 1, action := .create, performedBy := 1,
                   oldStatus := "", newStatus := statusString .pending,
                   comment := "trip" } : LeaveAudit)] }

theorem applyLeave_overlap_and_create_witness :
    ApplyLeave (fun m => 30 * m) c8DB 1 c8Req = (c8DB, .error .overlapping) ∧
    (c8OkLeave.status = .pending ∧
      c8OkLeave ∈ c8OkState.leaves ∧
      { leaveId := c8OkLeave.id, action := AuditAction.create, performedBy := 1,
        oldStatus := "", newStatus := statusString .pending,
        comment := c8Req.reason } ∈ c8OkState.audits) :=
  ⟨(applyLeave_overlap_and_create (fun m => 30 * m) c8DB 1 c8Req).1 (by decide)
      (by simp [findLeaveType, c8DB, c8Sick, c8Req]) (by decide),
    (applyLeave_overlap_and_create (fun m => 30 * m) c8okDB 1 c8Req).2 c8OkState c8OkLeave
      (by decide)⟩

end Hrms
